import Mathlib

/-!
Shallow embedding of `testutils/bench_delivery.go` (maddy benchmark harness
for the `module.DeliveryTarget` transaction protocol), together with proofs
about the embedded definitions.

Go strings are modelled as `List Char` (the file only manipulates ASCII
data, so one `Char` per byte is faithful).  Go machine integers that can
overflow are modelled as `Nat` with explicit `% 2 ^ w` reductions.
-/

namespace Bench

/-- A Go string, modelled as its list of characters. -/
abbrev GoStr := List Char

/-- The decimal digit character for `d` (ASCII `'0'` + d).  Embeds the digit
production used by Go's `strconv.Itoa`. -/
def digitChar (d : Nat) : Char := Char.ofNat (48 + d)

/-- Inverse of `digitChar` on actual digits, used only in proofs. -/
def unDigit (c : Char) : Nat := c.toNat - 48

/-- Little-endian decimal digit characters of `n`, with enough fuel. -/
def itoaAux : Nat → Nat → GoStr
  | 0, _ => []
  | _ + 1, 0 => []
  | fuel + 1, n + 1 => digitChar ((n + 1) % 10) :: itoaAux fuel ((n + 1) / 10)

/-- Embeds `strconv.Itoa` for the non-negative loop counters used by the
benchmark: the decimal representation of `n`. -/
def itoa (n : Nat) : GoStr :=
  if n = 0 then ['0'] else (itoaAux n n).reverse

/-- Embeds `strings.Replace(s, "X", new, -1)` as called by the benchmark:
every occurrence of the one-byte pattern `"X"` is replaced by `new`. -/
def replaceX : GoStr → GoStr → GoStr
  | [], _ => []
  | c :: rest, new => (if c = 'X' then new else [c]) ++ replaceX rest new

/-- Go's `%` on non-negative ints, with its run-time panic on a zero divisor
made explicit as the `none` branch. -/
def goMod (a b : Nat) : Option Nat := if b = 0 then none else some (a % b)

/-- The recipient address computed by the `AddRcpt` benchmark phase for loop
iteration `i`:
`strings.Replace(recipientTemplates[i%len(recipientTemplates)], "X", strconv.Itoa(i), -1)`.
`none` is the Go panic branch (modulo by zero / out-of-range index). -/
def rcptFor (templates : List GoStr) (i : Nat) : Option GoStr :=
  match goMod i templates.length with
  | none => none
  | some idx => (templates.get? idx).map (fun t => replaceX t (itoa i))

/-! ### Arithmetic facts about `itoa` and `replaceX` -/

theorem unDigit_digitChar {d : Nat} (h : d < 10) : unDigit (digitChar d) = d := by
  interval_cases d <;> decide

theorem map_unDigit_digitChar {l : List Nat} (h : ∀ d ∈ l, d < 10) :
    (l.map digitChar).map unDigit = l := by
  induction l with
  | nil => rfl
  | cons d rest ih =>
    simp only [List.map_cons, List.cons.injEq]
    exact ⟨unDigit_digitChar (h d (by simp)), ih fun x hx => h x (by simp [hx])⟩

theorem itoaAux_eq_digits :
    ∀ fuel n, n ≤ fuel → itoaAux fuel n = (Nat.digits 10 n).map digitChar := by
  intro fuel
  induction fuel with
  | zero =>
    intro n hn
    interval_cases n
    simp [itoaAux, Nat.digits_zero]
  | succ fuel ih =>
    intro n hn
    match n with
    | 0 => simp [itoaAux, Nat.digits_zero]
    | m + 1 =>
      show digitChar ((m + 1) % 10) :: itoaAux fuel ((m + 1) / 10) = _
      rw [Nat.digits_def' (by norm_num : (1 : Nat) < 10) (Nat.succ_pos m), List.map_cons,
        ih ((m + 1) / 10) (by omega)]

/-- Left inverse of `itoa`, used only to prove injectivity. -/
def unItoa (s : GoStr) : Nat := Nat.ofDigits 10 (s.reverse.map unDigit)

theorem unItoa_itoa (n : Nat) : unItoa (itoa n) = n := by
  by_cases h : n = 0
  · subst h; decide
  · unfold itoa unItoa
    rw [if_neg h, itoaAux_eq_digits n n (Nat.le_refl n), List.reverse_reverse,
      map_unDigit_digitChar (fun d hd => Nat.digits_lt_base (by norm_num) hd),
      Nat.ofDigits_digits]

theorem itoa_injective : Function.Injective itoa :=
  Function.LeftInverse.injective unItoa_itoa

theorem replaceX_length (t s : GoStr) :
    (replaceX t s).length =
      (t.filter (fun c => c ≠ 'X')).length + t.count 'X' * s.length := by
  induction t with
  | nil => simp [replaceX]
  | cons c rest ih =>
    by_cases hc : c = 'X'
    · subst hc
      simp [replaceX, ih, List.count_cons, Nat.succ_mul]
      omega
    · simp [replaceX, hc, ih, List.count_cons, Ne.symm hc]
      omega

theorem replaceX_injOn {t : GoStr} (hX : 'X' ∈ t) {s₁ s₂ : GoStr}
    (h : replaceX t s₁ = replaceX t s₂) : s₁ = s₂ := by
  have hlen : s₁.length = s₂.length := by
    have h1 := replaceX_length t s₁
    have h2 := replaceX_length t s₂
    rw [h] at h1
    have hcount : 0 < t.count 'X' := List.count_pos_iff.2 hX
    have := h1.symm.trans h2
    have := Nat.eq_of_mul_eq_mul_left hcount (by omega : t.count 'X' * s₁.length = t.count 'X' * s₂.length)
    exact this
  induction t with
  | nil => cases hX
  | cons c rest ih =>
    by_cases hc : c = 'X'
    · subst hc
      simp only [replaceX, if_pos rfl] at h
      exact (List.append_inj h hlen).1
    · simp only [replaceX, if_neg hc, List.singleton_append, List.cons.injEq] at h
      have hX' : 'X' ∈ rest := by
        cases hX with
        | head => exact absurd rfl hc
        | tail _ h' => exact h'
      exact ih hX' h.2

/-! ### SHA-1 and hex encoding

`RandomMsg` computes `hex.EncodeToString(sha1.Sum([]byte(b.Name())))`.
`crypto/sha1` and `encoding/hex` are Go standard-library collaborators of
the repository; they are embedded here from their published definitions
(FIPS 180 SHA-1, lower-case hex).  Bytes are `Nat` values kept below 256,
32-bit words are `Nat` values kept below `2 ^ 32`. -/

/-- Reduce to a 32-bit word. -/
def w32 (n : Nat) : Nat := n % 2 ^ 32

/-- Rotate the 32-bit word `n` left by `k` bits. -/
def rotl (k n : Nat) : Nat := w32 (n * 2 ^ k) ||| n % 2 ^ 32 / 2 ^ (32 - k)

/-- Big-endian 32-bit word from four bytes. -/
def beWord (b0 b1 b2 b3 : Nat) : Nat :=
  b0 % 256 * 2 ^ 24 + b1 % 256 * 2 ^ 16 + b2 % 256 * 2 ^ 8 + b3 % 256

/-- Split a byte list into big-endian 32-bit words. -/
def toWords : List Nat → List Nat
  | b0 :: b1 :: b2 :: b3 :: rest => beWord b0 b1 b2 b3 :: toWords rest
  | _ => []

/-- The 64-bit big-endian encoding of `n`, as eight bytes. -/
def beBytes8 (n : Nat) : List Nat :=
  [n / 2 ^ 56 % 256, n / 2 ^ 48 % 256, n / 2 ^ 40 % 256, n / 2 ^ 32 % 256,
   n / 2 ^ 24 % 256, n / 2 ^ 16 % 256, n / 2 ^ 8 % 256, n % 256]

/-- SHA-1 padding: append `0x80`, zero bytes up to 56 mod 64, then the
message bit length as a 64-bit big-endian integer. -/
def sha1Pad (ms : List Nat) : List Nat :=
  ms ++ [0x80] ++ List.replicate ((119 - ms.length % 64) % 64) 0 ++ beBytes8 (8 * ms.length)

/-- Take 64-byte chunks, `n` of them. -/
def chunksGo : Nat → List Nat → List (List Nat)
  | 0, _ => []
  | n + 1, l => l.take 64 :: chunksGo n (l.drop 64)

/-- Split a byte list into 64-byte chunks (SHA-1 padding always produces a
multiple of 64 bytes, so the ceiling division is exact). -/
def chunks64 (l : List Nat) : List (List Nat) := chunksGo ((l.length + 63) / 64) l

/-- One step of the SHA-1 message-schedule extension: append
`rotl1 (w[t-3] xor w[t-8] xor w[t-14] xor w[t-16])` where `t` is the
current length of the schedule. -/
def schedStep (w : List Nat) : List Nat :=
  w ++ [rotl 1 (w.getD (w.length - 3) 0 ^^^ w.getD (w.length - 8) 0 ^^^
        w.getD (w.length - 14) 0 ^^^ w.getD (w.length - 16) 0)]

/-- Extend the message schedule by `n` words. -/
def extendW (w : List Nat) : Nat → List Nat
  | 0 => w
  | n + 1 => extendW (schedStep w) n

/-- The five 32-bit working/hash values of SHA-1. -/
structure H5 where
  a : Nat
  b : Nat
  c : Nat
  d : Nat
  e : Nat
deriving DecidableEq

/-- The SHA-1 round constant for round `t`. -/
def sha1K (t : Nat) : Nat :=
  if t < 20 then 0x5A827999 else if t < 40 then 0x6ED9EBA1
  else if t < 60 then 0x8F1BBCDC else 0xCA62C1D6

/-- The SHA-1 round function for round `t`. -/
def sha1F (t b c d : Nat) : Nat :=
  if t < 20 then b &&& c ||| (b ^^^ 0xFFFFFFFF) &&& d
  else if t < 40 then b ^^^ c ^^^ d
  else if t < 60 then b &&& c ||| b &&& d ||| c &&& d
  else b ^^^ c ^^^ d

/-- One SHA-1 compression round. -/
def sha1Round (w : List Nat) (t : Nat) (s : H5) : H5 :=
  ⟨w32 (rotl 5 s.a + sha1F t s.b s.c s.d + s.e + sha1K t + w.getD t 0),
   s.a, rotl 30 s.b, s.c, s.d⟩

/-- Run `n` SHA-1 rounds starting at round index `t`. -/
def sha1Rounds (w : List Nat) : Nat → Nat → H5 → H5
  | _, 0, s => s
  | t, n + 1, s => sha1Rounds w (t + 1) n (sha1Round w t s)

/-- Process one 64-byte chunk. -/
def sha1Chunk (h : H5) (chunk : List Nat) : H5 :=
  let w := extendW (toWords chunk) 64
  let s := sha1Rounds w 0 80 h
  ⟨w32 (h.a + s.a), w32 (h.b + s.b), w32 (h.c + s.c), w32 (h.d + s.d), w32 (h.e + s.e)⟩

/-- The SHA-1 initialization vector. -/
def sha1Init : H5 := ⟨0x67452301, 0xEFCDAB89, 0x98BADCFE, 0x10325476, 0xC3D2E1F0⟩

/-- The four big-endian bytes of a 32-bit word. -/
def wordBytes (n : Nat) : List Nat :=
  [n / 2 ^ 24 % 256, n / 2 ^ 16 % 256, n / 2 ^ 8 % 256, n % 256]

/-- Embeds `sha1.Sum`: the 20-byte SHA-1 digest of `msg`. -/
def sha1 (msg : List Nat) : List Nat :=
  let h := (chunks64 (sha1Pad msg)).foldl sha1Chunk sha1Init
  wordBytes h.a ++ wordBytes h.b ++ wordBytes h.c ++ wordBytes h.d ++ wordBytes h.e

/-- The lower-case hexadecimal digit character for `d < 16`, as produced by
`encoding/hex`. -/
def hexDigit (d : Nat) : Char :=
  if d < 10 then Char.ofNat (48 + d) else Char.ofNat (87 + d)

/-- Embeds `hex.EncodeToString`: two lower-case hex characters per byte. -/
def hexEncode : List Nat → GoStr
  | [] => []
  | b :: rest => hexDigit (b / 16) :: hexDigit (b % 16) :: hexEncode rest

/-- `c` is a lower-case hexadecimal character. -/
def isHexChar (c : Char) : Bool :=
  (48 ≤ c.toNat && c.toNat ≤ 57) || (97 ≤ c.toNat && c.toNat ≤ 102)

/-! ### The message fabricator (`RandomMsg`) -/

/-- `MessageBodySize` from the source. -/
def MessageBodySize : Nat := 100 * 1024

/-- `ExtraMessageHeaderFields` from the source. -/
def ExtraMessageHeaderFields : Nat := 20

/-- `ExtraMessageHeaderFieldSize` from the source. -/
def ExtraMessageHeaderFieldSize : Nat := 100

/-- The `headerPreamble` map from the source, as its list of entries in
source-text order.  Go map iteration order is unspecified, so the phases
below take the iteration order as an explicit parameter ranging over
permutations of this list. -/
def headerPreamble : List (GoStr × GoStr) :=
  [("From".toList, ("\"whatever whatever\" <whatever@example.org>").toList),
   ("Message-ID".toList, "<AAAAAAAAAAAAAAAAAA@example.org>".toList),
   ("To".toList, ("\"whatever whatever\" <whatever@example.org>, \"fool\" <fool@example.org>").toList),
   ("Date".toList, "Tue, 08 Oct 2019 06:25:41 +0000".toList),
   ("Subject".toList, "Heya Heya Heya Heya".toList),
   ("Content-Type".toList, "text/plain; charset=us-ascii".toList),
   ("MIME-Version".toList, "1.0".toList),
   ("Content-Transfer-Encoding".toList, "8bit".toList),
   ("Received".toList,
    "from whatever ([127.0.0.1]) by whatever ([127.0.0.1]) with whatever id whatever for whatever@example.org".toList)]

/-- `module.MsgMetadata`, restricted to the fields the benchmark sets. -/
structure MsgMetadata where
  ID : GoStr
  DontTraceSender : Bool
deriving DecidableEq

/-- A message header, as the list of its (name, value) fields. -/
abbrev Header := List (GoStr × GoStr)

/-- `textproto.Header.Add` prepends the new field to the header. -/
def headerAdd (h : Header) (f : GoStr × GoStr) : Header := f :: h

/-- The 20 synthetic bloat fields added by `RandomMsg`:
`"AAAAAAAAAAAA-" + strconv.Itoa(i)` with a 100-character value. -/
def extraFields : Header :=
  (List.range ExtraMessageHeaderFields).map
    (fun i => ("AAAAAAAAAAAA-".toList ++ itoa i, List.replicate ExtraMessageHeaderFieldSize 'A'))

/-- Embeds `RandomMsg`.  `name` is the byte string `[]byte(b.Name())`;
`ord` is the (unspecified) iteration order of the `headerPreamble` map,
ranging over permutations of `headerPreamble`.  Returns the metadata, the
header (preamble fields added first, then the 20 extra fields) and the
body buffer `bytes.Repeat([]byte("a"), MessageBodySize)`. -/
def RandomMsg (name : List Nat) (ord : Header) : MsgMetadata × Header × GoStr :=
  (⟨hexEncode (sha1 name), true⟩,
   extraFields.foldl headerAdd (ord.foldl headerAdd []),
   List.replicate MessageBodySize 'a')

/-! ### The partial-status collector (`multipleErrs`) -/

/-- A Go `error` value: `none` is `nil`, `some k` a non-nil error. -/
abbrev GoErr := Option Nat

/-- The `multipleErrs` collector: a Go `map[string]error`, modelled as its
list of entries (Go map iteration order is irrelevant here; only
assignment and size are used). -/
abbrev MultipleErrs := List (GoStr × GoErr)

/-- Embeds `multipleErrs.SetStatus`: Go map assignment `m[rcptTo] = err`
(overwrite the entry if the key is present, otherwise add one). -/
def setStatus (m : MultipleErrs) (k : GoStr) (v : GoErr) : MultipleErrs :=
  if m.any (fun e => e.1 = k) then m.map (fun e => if e.1 = k then (k, v) else e)
  else m ++ [(k, v)]

/-- Entry lookup in the collector, used to state properties. -/
def lookupSC : MultipleErrs → GoStr → Option GoErr
  | [], _ => none
  | e :: rest, k => if e.1 = k then some e.2 else lookupSC rest k

/-! ### The benchmark driver (`BenchDelivery`)

The abstract `module.DeliveryTarget` backend is modelled as an oracle
deciding the outcome of every call.  Deliveries are numbered by the order
of the `Start` calls that created them within one phase run.  Each phase is
embedded as a function from the oracle, the iteration count `b.N` and the
configuration to the list of protocol events the phase performs on the
backend, following the Go control flow exactly: `b.Fatal` and `b.Skip`
terminate the phase via `runtime.Goexit`, which still runs the deferred
calls registered so far, and a panic (modulo by zero) likewise runs them
while unwinding.  In every phase all `Body`/`BodyNonAtomic` calls use the
single header/body pair returned by the phase's one `RandomMsg` call. -/

/-- Oracle for the abstract delivery backend. -/
structure Target where
  /-- Whether the `k`-th `Start` call of the phase succeeds. -/
  startOk : Nat → Bool
  /-- Whether the `i`-th `AddRcpt` call on delivery `id` succeeds. -/
  addRcptOk : Nat → Nat → Bool
  /-- Whether the `i`-th `Body` call on delivery `id` succeeds. -/
  bodyOk : Nat → Nat → Bool
  /-- Whether `Commit` on delivery `id` succeeds. -/
  commitOk : Nat → Bool
  /-- Whether the delivery implements `module.PartialDelivery`. -/
  isPartial : Bool
  /-- The (recipient, status) pairs the `k`-th `BodyNonAtomic` call of the
  phase writes to its status collector via `SetStatus`, in order. -/
  report : Nat → List (GoStr × GoErr)

/-- One protocol event performed by a benchmark phase. -/
inductive Event where
  /-- A `Start` call that produced delivery `id` (`ok` = it succeeded). -/
  | start (id : Nat) (ok : Bool)
  /-- An `AddRcpt rcpt` call on delivery `id`. -/
  | addRcpt (id : Nat) (rcpt : GoStr) (ok : Bool)
  /-- An atomic `Body` call on delivery `id`. -/
  | body (id : Nat) (ok : Bool)
  /-- A `BodyNonAtomic` call on delivery `id`; `scBefore` is the collector
  state it receives. -/
  | bodyNA (id : Nat) (scBefore : MultipleErrs)
  /-- A `Commit` call on delivery `id`. -/
  | commit (id : Nat) (ok : Bool)
  /-- An `Abort` call on delivery `id`. -/
  | abort (id : Nat)
  /-- `b.Fatal` fired. -/
  | fatal
  /-- `b.Skip` fired. -/
  | skipped
  /-- A run-time panic fired. -/
  | panicked
deriving DecidableEq

/-- The timed loop of the `Start` phase: `Start` each of the remaining `n`
iterations (current loop index `i`), accumulating successful deliveries in
`acc`; on failure `b.Fatal` ends the phase (the abort loop after the timed
loop is not deferred, so it does not run); when the loop finishes, each
accumulated delivery is aborted in order. -/
def startLoop (t : Target) : Nat → Nat → List Nat → List Event
  | 0, _, acc => acc.map Event.abort
  | n + 1, i, acc =>
    if t.startOk i then Event.start i true :: startLoop t n (i + 1) (acc ++ [i])
    else [Event.start i false, Event.fatal]

/-- The `Start` benchmark phase (`b.Run("Start", ...)`). -/
def runStart (t : Target) (N : Nat) : List Event := startLoop t N 0 []

/-- The timed loop of the `AddRcpt` phase: for each remaining iteration
(loop index `i`) add `rcptFor templates i` to delivery `id`; a failed
`AddRcpt` is `b.Fatal`, an empty template list is a panic. -/
def addRcptLoop (t : Target) (templates : List GoStr) (id : Nat) : Nat → Nat → List Event
  | 0, _ => []
  | n + 1, i =>
    match rcptFor templates i with
    | none => [Event.panicked]
    | some r =>
      if t.addRcptOk id i then Event.addRcpt id r true :: addRcptLoop t templates id n (i + 1)
      else [Event.addRcpt id r false, Event.fatal]

/-- The `AddRcpt` benchmark phase: one `Start`, `defer delivery.Abort()`,
then the timed loop.  The deferred abort runs on every exit of the loop. -/
def runAddRcpt (t : Target) (N : Nat) (templates : List GoStr) : List Event :=
  if t.startOk 0 then
    Event.start 0 true :: (addRcptLoop t templates 0 N 0 ++ [Event.abort 0])
  else [Event.start 0 false, Event.fatal]

/-- The un-timed recipient set-up loop of the `Body`, `BodyNonAtomic` and
full-transaction phases: `for i, rcptTemplate := range recipientTemplates`,
adding `strings.Replace(rcptTemplate, "X", strconv.Itoa(i), -1)`.  Returns
the events and whether the loop completed without `b.Fatal`. -/
def rcptRangeLoop (t : Target) (id : Nat) : List GoStr → Nat → List Event × Bool
  | [], _ => ([], true)
  | tmpl :: rest, i =>
    let r := replaceX tmpl (itoa i)
    if t.addRcptOk id i then
      let p := rcptRangeLoop t id rest (i + 1)
      (Event.addRcpt id r true :: p.1, p.2)
    else ([Event.addRcpt id r false, Event.fatal], false)

/-- The timed loop of the `Body` phase: `N` atomic `Body` calls on the one
delivery `id`; a failure is `b.Fatal`. -/
def bodyLoop (t : Target) (id : Nat) : Nat → Nat → List Event
  | 0, _ => []
  | n + 1, i =>
    if t.bodyOk id i then Event.body id true :: bodyLoop t id n (i + 1)
    else [Event.body id false, Event.fatal]

/-- The `Body` benchmark phase: skipped when `idempotentBody` is false;
otherwise one `Start`, deferred abort, the recipient set-up loop, then the
timed `Body` loop. -/
def runBody (t : Target) (N : Nat) (templates : List GoStr) (idem : Bool) : List Event :=
  if !idem then [Event.skipped]
  else if t.startOk 0 then
    let p := rcptRangeLoop t 0 templates 0
    Event.start 0 true :: ((p.1 ++ if p.2 then bodyLoop t 0 N 0 else []) ++ [Event.abort 0])
  else [Event.start 0 false, Event.fatal]

/-- The timed loop of the `BodyNonAtomic` phase: `N` calls on delivery
`id`, each receiving the current collector state `sc` and then applying the
backend's `SetStatus` writes for that call to it.  The returned error of
`BodyNonAtomic` is ignored by the benchmark, so no call fails the loop. -/
def naLoop (t : Target) (id : Nat) : Nat → Nat → MultipleErrs → List Event
  | 0, _, _ => []
  | n + 1, i, sc =>
    Event.bodyNA id sc ::
      naLoop t id n (i + 1) ((t.report i).foldl (fun m p => setStatus m p.1 p.2) sc)

/-- The `BodyNonAtomic` benchmark phase: skipped when `idempotentBody` is
false; otherwise one `Start`, deferred abort, the `PartialDelivery`
capability probe (`b.Skip` when it fails, after which the deferred abort
still runs), the recipient set-up loop, then `sc := multipleErrs{}` and the
timed loop sharing that one collector. -/
def runBodyNA (t : Target) (N : Nat) (templates : List GoStr) (idem : Bool) : List Event :=
  if !idem then [Event.skipped]
  else if t.startOk 0 then
    Event.start 0 true ::
      (if !t.isPartial then [Event.skipped, Event.abort 0]
       else
        let p := rcptRangeLoop t 0 templates 0
        (p.1 ++ if p.2 then naLoop t 0 N 0 [] else []) ++ [Event.abort 0])
  else [Event.start 0 false, Event.fatal]

/-- One iteration of the full-transaction phase, for delivery `it`:
`Start`, the recipient set-up loop, one atomic `Body`, `Commit`; any
failure is `b.Fatal`.  No abort is deferred in this phase.  Returns the
events and whether the iteration completed. -/
def fullIter (t : Target) (templates : List GoStr) (it : Nat) : List Event × Bool :=
  if t.startOk it then
    if (rcptRangeLoop t it templates 0).2 then
      if t.bodyOk it 0 then
        if t.commitOk it then
          (Event.start it true ::
            ((rcptRangeLoop t it templates 0).1 ++ [Event.body it true, Event.commit it true]),
           true)
        else
          (Event.start it true ::
            ((rcptRangeLoop t it templates 0).1 ++
              [Event.body it true, Event.commit it false, Event.fatal]),
           false)
      else
        (Event.start it true ::
          ((rcptRangeLoop t it templates 0).1 ++ [Event.body it false, Event.fatal]),
         false)
    else (Event.start it true :: (rcptRangeLoop t it templates 0).1, false)
  else ([Event.start it false, Event.fatal], false)

/-- The timed loop of the full-transaction phase. -/
def fullLoop (t : Target) (templates : List GoStr) : Nat → Nat → List Event
  | 0, _ => []
  | n + 1, it =>
    if (fullIter t templates it).2 then
      (fullIter t templates it).1 ++ fullLoop t templates n (it + 1)
    else (fullIter t templates it).1

/-- The `Full transaction` benchmark phase. -/
def runFull (t : Target) (N : Nat) (templates : List GoStr) : List Event :=
  fullLoop t templates N 0

/-! ### Trace observations -/

/-- `e` is a terminal call (`Commit` or `Abort`) on delivery `id`. -/
def isTerminalFor (id : Nat) : Event → Bool
  | Event.commit j _ => j == id
  | Event.abort j => j == id
  | _ => false

/-- The number of terminal calls on delivery `id` in a trace. -/
def terminalCount (tr : List Event) (id : Nat) : Nat := tr.countP (isTerminalFor id)

/-- Delivery `id` was successfully started in the trace. -/
def startedIn (tr : List Event) (id : Nat) : Prop := Event.start id true ∈ tr

instance (tr : List Event) (id : Nat) : Decidable (startedIn tr id) := by
  unfold startedIn; infer_instance

/-- `e` is an atomic `Body` call on delivery `id`. -/
def isBodyFor (id : Nat) : Event → Bool
  | Event.body j _ => j == id
  | _ => false

/-- The number of atomic `Body` calls on delivery `id` in a trace. -/
def bodyCount (tr : List Event) (id : Nat) : Nat := tr.countP (isBodyFor id)

/-- `e` is a body submission (atomic or non-atomic). -/
def isSubmission : Event → Bool
  | Event.body _ _ => true
  | Event.bodyNA _ _ => true
  | _ => false

/-- The number of body submissions (atomic or non-atomic) in a trace.  In
each phase all submissions carry the phase's single `RandomMsg`
header/body pair. -/
def submissionCount (tr : List Event) : Nat := tr.countP isSubmission

/-- `e` is a `BodyNonAtomic` call. -/
def isNA : Event → Bool
  | Event.bodyNA _ _ => true
  | _ => false

/-- The `BodyNonAtomic` events of a trace, in order. -/
def naEvents (tr : List Event) : List Event := tr.filter isNA

/-! ### Structural lemmas about the phase loops -/

theorem mem_addRcptLoop {t : Target} {tm : List GoStr} {id : Nat} :
    ∀ {n i : Nat} {e : Event}, e ∈ addRcptLoop t tm id n i →
      (∃ r ok, e = Event.addRcpt id r ok) ∨ e = Event.fatal ∨ e = Event.panicked := by
  intro n
  induction n with
  | zero => intro i e h; cases h
  | succ n ih =>
    intro i e h
    unfold addRcptLoop at h
    split at h
    · simp at h; simp [h]
    · split at h
      · rcases List.mem_cons.1 h with h1 | h2
        · exact Or.inl ⟨_, true, h1⟩
        · exact ih h2
      · simp at h
        rcases h with h1 | h1
        · exact Or.inl ⟨_, false, h1⟩
        · simp [h1]

theorem mem_rcptRangeLoop {t : Target} {id : Nat} :
    ∀ {tl : List GoStr} {i : Nat} {e : Event}, e ∈ (rcptRangeLoop t id tl i).1 →
      (∃ r ok, e = Event.addRcpt id r ok) ∨ e = Event.fatal := by
  intro tl
  induction tl with
  | nil => intro i e h; cases h
  | cons tmpl rest ih =>
    intro i e h
    unfold rcptRangeLoop at h
    by_cases hok : t.addRcptOk id i
    · rw [if_pos hok] at h
      rcases List.mem_cons.1 h with h1 | h2
      · exact Or.inl ⟨_, true, h1⟩
      · exact ih h2
    · rw [if_neg hok] at h
      simp at h
      rcases h with h1 | h1
      · exact Or.inl ⟨_, false, h1⟩
      · simp [h1]

theorem mem_bodyLoop {t : Target} {id : Nat} :
    ∀ {n i : Nat} {e : Event}, e ∈ bodyLoop t id n i →
      (∃ ok, e = Event.body id ok) ∨ e = Event.fatal := by
  intro n
  induction n with
  | zero => intro i e h; cases h
  | succ n ih =>
    intro i e h
    unfold bodyLoop at h
    by_cases hok : t.bodyOk id i
    · rw [if_pos hok] at h
      rcases List.mem_cons.1 h with h1 | h2
      · exact Or.inl ⟨true, h1⟩
      · exact ih h2
    · rw [if_neg hok] at h
      simp at h
      rcases h with h1 | h1
      · exact Or.inl ⟨false, h1⟩
      · simp [h1]

theorem mem_naLoop {t : Target} {id : Nat} :
    ∀ {n i : Nat} {sc : MultipleErrs} {e : Event}, e ∈ naLoop t id n i sc →
      ∃ sc', e = Event.bodyNA id sc' := by
  intro n
  induction n with
  | zero => intro i sc e h; cases h
  | succ n ih =>
    intro i sc e h
    unfold naLoop at h
    rcases List.mem_cons.1 h with h1 | h2
    · exact ⟨sc, h1⟩
    · exact ih h2

theorem terminalCount_eq_zero {l : List Event} {id : Nat}
    (h : ∀ e ∈ l, isTerminalFor id e = false) : terminalCount l id = 0 :=
  List.countP_eq_zero.mpr (by simpa using h)

theorem addRcptLoop_terminalCount (t : Target) (tm : List GoStr) (d N i id : Nat) :
    terminalCount (addRcptLoop t tm d N i) id = 0 :=
  terminalCount_eq_zero fun e he => by
    rcases mem_addRcptLoop he with ⟨r, ok, rfl⟩ | rfl | rfl <;> simp [isTerminalFor]

theorem rcptRangeLoop_terminalCount (t : Target) (d : Nat) (tl : List GoStr) (i id : Nat) :
    terminalCount (rcptRangeLoop t d tl i).1 id = 0 :=
  terminalCount_eq_zero fun e he => by
    rcases mem_rcptRangeLoop he with ⟨r, ok, rfl⟩ | rfl <;> simp [isTerminalFor]

theorem bodyLoop_terminalCount (t : Target) (d N i id : Nat) :
    terminalCount (bodyLoop t d N i) id = 0 :=
  terminalCount_eq_zero fun e he => by
    rcases mem_bodyLoop he with ⟨ok, rfl⟩ | rfl <;> simp [isTerminalFor]

theorem naLoop_terminalCount (t : Target) (d N i id : Nat) (sc : MultipleErrs) :
    terminalCount (naLoop t d N i sc) id = 0 :=
  terminalCount_eq_zero fun e he => by
    rcases mem_naLoop he with ⟨sc', rfl⟩; simp [isTerminalFor]

theorem terminalCount_append (l₁ l₂ : List Event) (id : Nat) :
    terminalCount (l₁ ++ l₂) id = terminalCount l₁ id + terminalCount l₂ id :=
  List.countP_append ..

/-- In the `AddRcpt` phase, every successfully started delivery is delivery
0 and receives exactly one terminal call, on every exit path. -/
theorem addRcpt_phase_terminal (t : Target) (N : Nat) (tm : List GoStr) (id : Nat)
    (h : startedIn (runAddRcpt t N tm) id) :
    terminalCount (runAddRcpt t N tm) id = 1 := by
  unfold startedIn at h
  unfold runAddRcpt at h ⊢
  by_cases hs : t.startOk 0 = true
  · rw [if_pos hs] at h ⊢
    have hid : id = 0 := by
      rcases List.mem_cons.1 h with h1 | h2
      · exact (Event.start.inj h1).1
      · rcases List.mem_append.1 h2 with h3 | h3
        · rcases mem_addRcptLoop h3 with ⟨r, ok, he⟩ | he | he <;> cases he
        · simp at h3
    subst hid
    unfold terminalCount
    rw [List.countP_cons, List.countP_append]
    have h0 := addRcptLoop_terminalCount t tm 0 N 0 0
    unfold terminalCount at h0
    rw [h0]
    simp [isTerminalFor]
  · rw [if_neg hs] at h
    simp at h


/-- In the `Body` phase, every successfully started delivery receives
exactly one terminal call, on every exit path. -/
theorem body_phase_terminal (t : Target) (N : Nat) (tm : List GoStr) (idem : Bool) (id : Nat)
    (h : startedIn (runBody t N tm idem) id) :
    terminalCount (runBody t N tm idem) id = 1 := by
  unfold startedIn at h
  unfold runBody at h ⊢
  by_cases hi : idem = true
  · rw [hi] at h ⊢
    simp only [Bool.not_true, Bool.false_eq_true, if_false] at h ⊢
    by_cases hs : t.startOk 0 = true
    · rw [if_pos hs] at h ⊢
      have hid : id = 0 := by
        rcases List.mem_cons.1 h with h1 | h2
        · exact (Event.start.inj h1).1
        · rcases List.mem_append.1 h2 with h3 | h3
          · rcases List.mem_append.1 h3 with h4 | h4
            · rcases mem_rcptRangeLoop h4 with ⟨r, ok, he⟩ | he <;> cases he
            · by_cases hc : (rcptRangeLoop t 0 tm 0).2 = true
              · rw [if_pos hc] at h4
                rcases mem_bodyLoop h4 with ⟨ok, he⟩ | he <;> cases he
              · rw [if_neg hc] at h4; cases h4
          · simp at h3
      subst hid
      unfold terminalCount
      rw [List.countP_cons, List.countP_append, List.countP_append]
      have h0 := rcptRangeLoop_terminalCount t 0 tm 0 0
      unfold terminalCount at h0
      rw [h0]
      have h1 : ((if (rcptRangeLoop t 0 tm 0).2 = true then bodyLoop t 0 N 0
          else []).countP (isTerminalFor 0)) = 0 := by
        split
        · have h2 := bodyLoop_terminalCount t 0 N 0 0
          unfold terminalCount at h2
          exact h2
        · rfl
      rw [h1]
      simp [isTerminalFor]
    · rw [if_neg hs] at h
      simp at h
  · simp only [Bool.not_eq_true] at hi
    rw [hi] at h
    simp at h

/-- In the `BodyNonAtomic` phase, every successfully started delivery
receives exactly one terminal call, on every exit path (including the
`b.Skip` taken when the capability probe fails). -/
theorem bodyNA_phase_terminal (t : Target) (N : Nat) (tm : List GoStr) (idem : Bool) (id : Nat)
    (h : startedIn (runBodyNA t N tm idem) id) :
    terminalCount (runBodyNA t N tm idem) id = 1 := by
  unfold startedIn at h
  unfold runBodyNA at h ⊢
  by_cases hi : idem = true
  · rw [hi] at h ⊢
    simp only [Bool.not_true, Bool.false_eq_true, if_false] at h ⊢
    by_cases hs : t.startOk 0 = true
    · rw [if_pos hs] at h ⊢
      by_cases hp : t.isPartial = true
      · rw [hp] at h ⊢
        simp only [Bool.not_true, Bool.false_eq_true, if_false] at h ⊢
        have hid : id = 0 := by
          rcases List.mem_cons.1 h with h1 | h2
          · exact (Event.start.inj h1).1
          · rcases List.mem_append.1 h2 with h3 | h3
            · rcases List.mem_append.1 h3 with h4 | h4
              · rcases mem_rcptRangeLoop h4 with ⟨r, ok, he⟩ | he <;> cases he
              · by_cases hc : (rcptRangeLoop t 0 tm 0).2 = true
                · rw [if_pos hc] at h4
                  rcases mem_naLoop h4 with ⟨sc', he⟩; cases he
                · rw [if_neg hc] at h4; cases h4
            · simp at h3
        subst hid
        unfold terminalCount
        rw [List.countP_cons, List.countP_append, List.countP_append]
        have h0 := rcptRangeLoop_terminalCount t 0 tm 0 0
        unfold terminalCount at h0
        rw [h0]
        have h1 : ((if (rcptRangeLoop t 0 tm 0).2 = true then naLoop t 0 N 0 []
            else []).countP (isTerminalFor 0)) = 0 := by
          split
          · have h2 := naLoop_terminalCount t 0 N 0 0 []
            unfold terminalCount at h2
            exact h2
          · rfl
        rw [h1]
        simp [isTerminalFor]
      · simp only [Bool.not_eq_true] at hp
        rw [hp] at h ⊢
        simp only [Bool.not_false, if_true] at h ⊢
        have hid : id = 0 := by
          rcases List.mem_cons.1 h with h1 | h2
          · exact (Event.start.inj h1).1
          · simp at h2
        subst hid
        simp [terminalCount, List.countP_cons, isTerminalFor]
    · rw [if_neg hs] at h
      simp at h
  · simp only [Bool.not_eq_true] at hi
    rw [hi] at h
    simp at h

/-- Closed form of the `Start` phase's timed loop when no `Start` call
fails: the starts in order, then the aborts of `acc` and of the new
deliveries, in order. -/
theorem startLoop_allOk (t : Target) :
    ∀ (n i : Nat) (acc : List Nat), (∀ k, k < i + n → t.startOk k = true) →
      startLoop t n i acc =
        (List.range' i n).map (fun j => Event.start j true) ++
          (acc ++ List.range' i n).map Event.abort := by
  intro n
  induction n with
  | zero => intro i acc _; simp [startLoop]
  | succ n ih =>
    intro i acc h
    have hs : t.startOk i = true := h i (by omega)
    rw [startLoop, if_pos hs, ih (i + 1) (acc ++ [i]) (fun k hk => h k (by omega)),
      List.range'_succ]
    simp

/-- In the `Start` phase, when every `Start` call succeeds, every started
delivery receives exactly one terminal call (the abort loop after the
timed loop). -/
theorem start_phase_terminal_allOk (t : Target) (N : Nat) (id : Nat)
    (hok : ∀ k, k < N → t.startOk k = true) (h : startedIn (runStart t N) id) :
    terminalCount (runStart t N) id = 1 := by
  unfold startedIn at h
  unfold runStart at h ⊢
  rw [startLoop_allOk t N 0 [] (by simpa using hok)] at h ⊢
  have hid : id ∈ List.range' 0 N := by
    rcases List.mem_append.1 h with h1 | h1
    · rcases List.mem_map.1 h1 with ⟨j, hj, he⟩
      cases he
      exact hj
    · rcases List.mem_map.1 h1 with ⟨j, _, he⟩
      cases he
  unfold terminalCount
  rw [List.countP_append, List.countP_map, List.countP_map]
  have h1 : List.countP (isTerminalFor id ∘ fun j => Event.start j true) (List.range' 0 N) = 0 :=
    List.countP_eq_zero.mpr (fun a _ => by simp [isTerminalFor, Function.comp])
  have h2 : (isTerminalFor id ∘ Event.abort) = fun j => j == id := rfl
  rw [h1, h2]
  simp only [List.nil_append, Nat.zero_add]
  have h3 : ∀ l : List Nat, l.Nodup → id ∈ l → List.countP (fun j => j == id) l = 1 := by
    intro l
    induction l with
    | nil => intro _ hm; cases hm
    | cons a l ihl =>
      intro hn hm
      rw [List.countP_cons]
      rcases List.mem_cons.1 hm with rfl | hm'
      · have hz : List.countP (fun j => j == id) l = 0 :=
          List.countP_eq_zero.mpr fun x hx hbeq =>
            (List.nodup_cons.1 hn).1 (by rwa [eq_of_beq hbeq] at hx)
        simp [hz]
      · have hne : a ≠ id := fun he => (List.nodup_cons.1 hn).1 (he ▸ hm')
        have : (a == id) = false := by simpa using hne
        rw [ihl (List.nodup_cons.1 hn).2 hm', this]
        simp
  exact h3 _ (List.nodup_range' 0 N) hid

/-- The events of one full-transaction iteration are `b.Fatal` or carry
delivery number `it`. -/
theorem mem_fullIter {t : Target} {tm : List GoStr} {it : Nat} {e : Event}
    (h : e ∈ (fullIter t tm it).1) :
    e = Event.fatal ∨ (∃ ok, e = Event.start it ok) ∨ (∃ r ok, e = Event.addRcpt it r ok) ∨
      (∃ ok, e = Event.body it ok) ∨ ∃ ok, e = Event.commit it ok := by
  unfold fullIter at h
  split at h
  · split at h
    · split at h
      · split at h
        · rcases List.mem_cons.1 h with h1 | h1
          · exact Or.inr (Or.inl ⟨true, h1⟩)
          rcases List.mem_append.1 h1 with h2 | h2
          · rcases mem_rcptRangeLoop h2 with ⟨r, ok, rfl⟩ | rfl
            · exact Or.inr (Or.inr (Or.inl ⟨r, ok, rfl⟩))
            · exact Or.inl rfl
          · simp at h2
            rcases h2 with h3 | h3
            · exact Or.inr (Or.inr (Or.inr (Or.inl ⟨true, h3⟩)))
            · exact Or.inr (Or.inr (Or.inr (Or.inr ⟨true, h3⟩)))
        · rcases List.mem_cons.1 h with h1 | h1
          · exact Or.inr (Or.inl ⟨true, h1⟩)
          rcases List.mem_append.1 h1 with h2 | h2
          · rcases mem_rcptRangeLoop h2 with ⟨r, ok, rfl⟩ | rfl
            · exact Or.inr (Or.inr (Or.inl ⟨r, ok, rfl⟩))
            · exact Or.inl rfl
          · simp at h2
            rcases h2 with h3 | h3 | h3
            · exact Or.inr (Or.inr (Or.inr (Or.inl ⟨true, h3⟩)))
            · exact Or.inr (Or.inr (Or.inr (Or.inr ⟨false, h3⟩)))
            · exact Or.inl h3
      · rcases List.mem_cons.1 h with h1 | h1
        · exact Or.inr (Or.inl ⟨true, h1⟩)
        rcases List.mem_append.1 h1 with h2 | h2
        · rcases mem_rcptRangeLoop h2 with ⟨r, ok, rfl⟩ | rfl
          · exact Or.inr (Or.inr (Or.inl ⟨r, ok, rfl⟩))
          · exact Or.inl rfl
        · simp at h2
          rcases h2 with h3 | h3
          · exact Or.inr (Or.inr (Or.inr (Or.inl ⟨false, h3⟩)))
          · exact Or.inl h3
    · rcases List.mem_cons.1 h with h1 | h1
      · exact Or.inr (Or.inl ⟨true, h1⟩)
      · rcases mem_rcptRangeLoop h1 with ⟨r, ok, rfl⟩ | rfl
        · exact Or.inr (Or.inr (Or.inl ⟨r, ok, rfl⟩))
        · exact Or.inl rfl
  · simp at h
    rcases h with h1 | h1
    · exact Or.inr (Or.inl ⟨false, h1⟩)
    · exact Or.inl h1

/-- Every non-`fatal` event of the full-transaction loop starting at
iteration `it` carries a delivery number `≥ it`. -/
theorem mem_fullLoop {t : Target} {tm : List GoStr} :
    ∀ {n it : Nat} {e : Event}, e ∈ fullLoop t tm n it →
      e = Event.fatal ∨ (∃ j ok, it ≤ j ∧ e = Event.start j ok) ∨
        (∃ j r ok, it ≤ j ∧ e = Event.addRcpt j r ok) ∨
        (∃ j ok, it ≤ j ∧ e = Event.body j ok) ∨ ∃ j ok, it ≤ j ∧ e = Event.commit j ok := by
  intro n
  induction n with
  | zero => intro it e h; cases h
  | succ n ih =>
    intro it e h
    unfold fullLoop at h
    have hcase : e ∈ (fullIter t tm it).1 ∨ e ∈ fullLoop t tm n (it + 1) := by
      split at h
      · rcases List.mem_append.1 h with h1 | h1
        · exact Or.inl h1
        · exact Or.inr h1
      · exact Or.inl h
    rcases hcase with h1 | h1
    · rcases mem_fullIter h1 with rfl | ⟨ok, rfl⟩ | ⟨r, ok, rfl⟩ | ⟨ok, rfl⟩ | ⟨ok, rfl⟩
      · exact Or.inl rfl
      · exact Or.inr (Or.inl ⟨it, ok, le_refl it, rfl⟩)
      · exact Or.inr (Or.inr (Or.inl ⟨it, r, ok, le_refl it, rfl⟩))
      · exact Or.inr (Or.inr (Or.inr (Or.inl ⟨it, ok, le_refl it, rfl⟩)))
      · exact Or.inr (Or.inr (Or.inr (Or.inr ⟨it, ok, le_refl it, rfl⟩)))
    · rcases ih h1 with rfl | ⟨j, ok, hj, rfl⟩ | ⟨j, r, ok, hj, rfl⟩ | ⟨j, ok, hj, rfl⟩ |
        ⟨j, ok, hj, rfl⟩
      · exact Or.inl rfl
      · exact Or.inr (Or.inl ⟨j, ok, by omega, rfl⟩)
      · exact Or.inr (Or.inr (Or.inl ⟨j, r, ok, by omega, rfl⟩))
      · exact Or.inr (Or.inr (Or.inr (Or.inl ⟨j, ok, by omega, rfl⟩)))
      · exact Or.inr (Or.inr (Or.inr (Or.inr ⟨j, ok, by omega, rfl⟩)))

/-- No terminal call for a delivery numbered below the loop's starting
iteration appears in the full-transaction loop. -/
theorem fullLoop_terminalCount_lt (t : Target) (tm : List GoStr) (n it id : Nat)
    (h : id < it) : terminalCount (fullLoop t tm n it) id = 0 :=
  terminalCount_eq_zero fun e he => by
    rcases mem_fullLoop he with rfl | ⟨j, ok, hj, rfl⟩ | ⟨j, r, ok, hj, rfl⟩ |
      ⟨j, ok, hj, rfl⟩ | ⟨j, ok, hj, rfl⟩
    · simp [isTerminalFor]
    · simp [isTerminalFor]
    · simp [isTerminalFor]
    · simp [isTerminalFor]
    · simp only [isTerminalFor, beq_eq_false_iff_ne, ne_eq]
      omega

/-- When every `AddRcpt` call succeeds, the recipient set-up loop
completes. -/
theorem rcptRangeLoop_ok (t : Target) (id : Nat)
    (hok : ∀ i, t.addRcptOk id i = true) :
    ∀ (tl : List GoStr) (i : Nat), (rcptRangeLoop t id tl i).2 = true := by
  intro tl
  induction tl with
  | nil => intro i; rfl
  | cons tmpl rest ih =>
    intro i
    unfold rcptRangeLoop
    rw [if_pos (hok i)]
    exact ih (i + 1)

/-- Shape of one full-transaction iteration when every call succeeds. -/
theorem fullIter_allOk (t : Target) (tm : List GoStr) (it : Nat)
    (hstart : t.startOk it = true) (hrcpt : ∀ i, t.addRcptOk it i = true)
    (hbody : t.bodyOk it 0 = true) (hcommit : t.commitOk it = true) :
    fullIter t tm it =
      (Event.start it true ::
        ((rcptRangeLoop t it tm 0).1 ++ [Event.body it true, Event.commit it true]), true) := by
  unfold fullIter
  rw [if_pos hstart, if_pos (rcptRangeLoop_ok t it hrcpt tm 0), if_pos hbody, if_pos hcommit]

/-- In the full-transaction phase, when every call of the backend
succeeds, every started delivery receives exactly one terminal call (its
`Commit`). -/
theorem full_phase_terminal_allOk (t : Target) (tm : List GoStr)
    (hstart : ∀ k, t.startOk k = true) (hrcpt : ∀ k i, t.addRcptOk k i = true)
    (hbody : ∀ k i, t.bodyOk k i = true) (hcommit : ∀ k, t.commitOk k = true) :
    ∀ (n it id : Nat), startedIn (fullLoop t tm n it) id →
      terminalCount (fullLoop t tm n it) id = 1 := by
  intro n
  induction n with
  | zero => intro it id h; cases h
  | succ n ih =>
    intro it id h
    have hiter := fullIter_allOk t tm it (hstart it) (hrcpt it) (hbody it 0) (hcommit it)
    unfold startedIn at h
    unfold fullLoop at h ⊢
    rw [hiter] at h ⊢
    simp only [if_pos] at h ⊢
    have hid : id = it ∨ startedIn (fullLoop t tm n (it + 1)) id := by
      rcases List.mem_append.1 h with h1 | h1
      · rcases List.mem_cons.1 h1 with h2 | h2
        · exact Or.inl (Event.start.inj h2).1
        · rcases List.mem_append.1 h2 with h3 | h3
          · rcases mem_rcptRangeLoop h3 with ⟨r, ok, he⟩ | he <;> cases he
          · simp at h3
      · exact Or.inr h1
    rw [terminalCount_append]
    rcases hid with rfl | hrest
    · have hr : terminalCount (fullLoop t tm n (id + 1)) id = 0 :=
        fullLoop_terminalCount_lt t tm n (id + 1) id (by omega)
      rw [hr]
      unfold terminalCount
      rw [List.countP_cons, List.countP_append]
      have h0 := rcptRangeLoop_terminalCount t id tm 0 id
      unfold terminalCount at h0
      rw [h0]
      simp [isTerminalFor]
    · have hge : it + 1 ≤ id := by
        rcases mem_fullLoop hrest with he | ⟨j, ok, hj, he⟩ | ⟨j, r, ok, hj, he⟩ |
          ⟨j, ok, hj, he⟩ | ⟨j, ok, hj, he⟩ <;> (cases he <;> omega)
      have hblock : terminalCount
          (Event.start it true ::
            ((rcptRangeLoop t it tm 0).1 ++ [Event.body it true, Event.commit it true])) id = 0 := by
        unfold terminalCount
        rw [List.countP_cons, List.countP_append]
        have h0 := rcptRangeLoop_terminalCount t it tm 0 id
        unfold terminalCount at h0
        rw [h0]
        have : (it == id) = false := by
          simp only [beq_eq_false_iff_ne, ne_eq]
          omega
        simp [isTerminalFor, this]
      rw [hblock, ih (it + 1) id hrest]

/-! ### Body-call and submission counting -/

theorem bodyCount_eq_zero {l : List Event} {id : Nat}
    (h : ∀ e ∈ l, isBodyFor id e = false) : bodyCount l id = 0 :=
  List.countP_eq_zero.mpr (by simpa using h)

theorem submissionCount_eq_zero {l : List Event}
    (h : ∀ e ∈ l, isSubmission e = false) : submissionCount l = 0 :=
  List.countP_eq_zero.mpr (by simpa using h)

theorem mem_startLoop {t : Target} :
    ∀ {n i : Nat} {acc : List Nat} {e : Event}, e ∈ startLoop t n i acc →
      (∃ j ok, e = Event.start j ok) ∨ e = Event.fatal ∨ ∃ j, e = Event.abort j := by
  intro n
  induction n with
  | zero =>
    intro i acc e h
    unfold startLoop at h
    rcases List.mem_map.1 h with ⟨j, _, rfl⟩
    exact Or.inr (Or.inr ⟨j, rfl⟩)
  | succ n ih =>
    intro i acc e h
    unfold startLoop at h
    split at h
    · rcases List.mem_cons.1 h with h1 | h1
      · exact Or.inl ⟨i, true, h1⟩
      · exact ih h1
    · simp at h
      rcases h with h1 | h1
      · exact Or.inl ⟨i, false, h1⟩
      · simp [h1]

/-- The `Start` phase performs no body submission at all. -/
theorem runStart_submissionCount (t : Target) (N : Nat) :
    submissionCount (runStart t N) = 0 :=
  submissionCount_eq_zero fun e he => by
    rcases mem_startLoop he with ⟨j, ok, rfl⟩ | rfl | ⟨j, rfl⟩ <;> rfl

theorem runStart_bodyCount (t : Target) (N id : Nat) : bodyCount (runStart t N) id = 0 :=
  bodyCount_eq_zero fun e he => by
    rcases mem_startLoop he with ⟨j, ok, rfl⟩ | rfl | ⟨j, rfl⟩ <;> rfl

/-- Every event of the `AddRcpt` phase. -/
theorem mem_runAddRcpt {t : Target} {N : Nat} {tm : List GoStr} {e : Event}
    (h : e ∈ runAddRcpt t N tm) :
    (∃ j ok, e = Event.start j ok) ∨ (∃ j r ok, e = Event.addRcpt j r ok) ∨
      e = Event.fatal ∨ e = Event.panicked ∨ ∃ j, e = Event.abort j := by
  unfold runAddRcpt at h
  split at h
  · rcases List.mem_cons.1 h with h1 | h1
    · exact Or.inl ⟨0, true, h1⟩
    rcases List.mem_append.1 h1 with h2 | h2
    · rcases mem_addRcptLoop h2 with ⟨r, ok, rfl⟩ | rfl | rfl
      · exact Or.inr (Or.inl ⟨0, r, ok, rfl⟩)
      · exact Or.inr (Or.inr (Or.inl rfl))
      · exact Or.inr (Or.inr (Or.inr (Or.inl rfl)))
    · simp at h2
      simp [h2]
  · simp at h
    rcases h with h1 | h1
    · exact Or.inl ⟨0, false, h1⟩
    · simp [h1]

/-- The `AddRcpt` phase performs no body submission at all. -/
theorem runAddRcpt_submissionCount (t : Target) (N : Nat) (tm : List GoStr) :
    submissionCount (runAddRcpt t N tm) = 0 :=
  submissionCount_eq_zero fun e he => by
    rcases mem_runAddRcpt he with ⟨j, ok, rfl⟩ | ⟨j, r, ok, rfl⟩ | rfl | rfl | ⟨j, rfl⟩ <;> rfl

theorem runAddRcpt_bodyCount (t : Target) (N : Nat) (tm : List GoStr) (id : Nat) :
    bodyCount (runAddRcpt t N tm) id = 0 :=
  bodyCount_eq_zero fun e he => by
    rcases mem_runAddRcpt he with ⟨j, ok, rfl⟩ | ⟨j, r, ok, rfl⟩ | rfl | rfl | ⟨j, rfl⟩ <;> rfl

/-- Every event of the `BodyNonAtomic` phase. -/
theorem mem_runBodyNA {t : Target} {N : Nat} {tm : List GoStr} {idem : Bool} {e : Event}
    (h : e ∈ runBodyNA t N tm idem) :
    (∃ j ok, e = Event.start j ok) ∨ (∃ j r ok, e = Event.addRcpt j r ok) ∨
      (∃ j sc, e = Event.bodyNA j sc) ∨ e = Event.fatal ∨ e = Event.skipped ∨
      ∃ j, e = Event.abort j := by
  unfold runBodyNA at h
  split at h
  · simp at h
    simp [h]
  · split at h
    · rcases List.mem_cons.1 h with h1 | h1
      · exact Or.inl ⟨0, true, h1⟩
      split at h1
      · simp at h1
        rcases h1 with h2 | h2 <;> simp [h2]
      · rcases List.mem_append.1 h1 with h2 | h2
        · rcases List.mem_append.1 h2 with h3 | h3
          · rcases mem_rcptRangeLoop h3 with ⟨r, ok, rfl⟩ | rfl
            · exact Or.inr (Or.inl ⟨0, r, ok, rfl⟩)
            · exact Or.inr (Or.inr (Or.inr (Or.inl rfl)))
          · split at h3
            · rcases mem_naLoop h3 with ⟨sc, rfl⟩
              exact Or.inr (Or.inr (Or.inl ⟨0, sc, rfl⟩))
            · cases h3
        · simp at h2
          simp [h2]
    · simp at h
      rcases h with h1 | h1
      · exact Or.inl ⟨0, false, h1⟩
      · simp [h1]

/-- The `BodyNonAtomic` phase performs no atomic `Body` call. -/
theorem runBodyNA_bodyCount (t : Target) (N : Nat) (tm : List GoStr) (idem : Bool) (id : Nat) :
    bodyCount (runBodyNA t N tm idem) id = 0 :=
  bodyCount_eq_zero fun e he => by
    rcases mem_runBodyNA he with ⟨j, ok, rfl⟩ | ⟨j, r, ok, rfl⟩ | ⟨j, sc, rfl⟩ | rfl | rfl |
      ⟨j, rfl⟩ <;> rfl

theorem bodyLoop_bodyCount_le (t : Target) (d : Nat) :
    ∀ (n i id : Nat), bodyCount (bodyLoop t d n i) id ≤ n := by
  intro n
  induction n with
  | zero => intro i id; exact Nat.le_refl 0
  | succ n ih =>
    intro i id
    unfold bodyLoop bodyCount
    split
    · rw [List.countP_cons]
      have := ih (i + 1) id
      unfold bodyCount at this
      split <;> omega
    · rw [List.countP_cons, List.countP_cons, List.countP_nil]
      split <;> split <;> simp_all [isBodyFor]

theorem rcptRangeLoop_bodyCount (t : Target) (d : Nat) (tl : List GoStr) (i id : Nat) :
    bodyCount (rcptRangeLoop t d tl i).1 id = 0 :=
  bodyCount_eq_zero fun e he => by
    rcases mem_rcptRangeLoop he with ⟨r, ok, rfl⟩ | rfl <;> rfl

/-- All atomic `Body` calls of the `Body` phase are on delivery 0, and
there are at most `b.N` of them. -/
theorem runBody_bodyCount (t : Target) (N : Nat) (tm : List GoStr) (idem : Bool) (id : Nat) :
    bodyCount (runBody t N tm idem) id ≤ N ∧
      (id ≠ 0 → bodyCount (runBody t N tm idem) id = 0) := by
  unfold runBody
  split
  · simp [bodyCount, List.countP_cons, isBodyFor]
  · split
    · have hr : ∀ jd : Nat, bodyCount
          ((if (rcptRangeLoop t 0 tm 0).2 = true then bodyLoop t 0 N 0 else [])) jd ≤ N ∧
          (jd ≠ 0 → bodyCount
            ((if (rcptRangeLoop t 0 tm 0).2 = true then bodyLoop t 0 N 0 else [])) jd = 0) := by
        intro jd
        split
        · refine ⟨bodyLoop_bodyCount_le t 0 N 0 jd, fun hjd => ?_⟩
          exact bodyCount_eq_zero fun e he => by
            rcases mem_bodyLoop he with ⟨ok, rfl⟩ | rfl
            · simp [isBodyFor]
              omega
            · rfl
        · exact ⟨Nat.zero_le N, fun _ => rfl⟩
      have h0 := rcptRangeLoop_bodyCount t 0 tm 0 id
      unfold bodyCount at h0 hr ⊢
      rw [List.countP_cons, List.countP_append, List.countP_append, h0]
      rcases hr id with ⟨hle, hne⟩
      constructor
      · simp [isBodyFor]
        omega
      · intro hid
        rw [hne hid]
        simp [isBodyFor]
    · simp [bodyCount, List.countP_cons, isBodyFor]

/-- One full-transaction iteration performs at most one atomic `Body`
call, and only on its own delivery. -/
theorem fullIter_bodyCount (t : Target) (tm : List GoStr) (it id : Nat) :
    bodyCount (fullIter t tm it).1 id ≤ 1 ∧
      (id ≠ it → bodyCount (fullIter t tm it).1 id = 0) := by
  have h0 := rcptRangeLoop_bodyCount t it tm 0 id
  unfold bodyCount at h0 ⊢
  unfold fullIter
  by_cases h1 : t.startOk it = true
  · rw [if_pos h1]
    by_cases h2 : (rcptRangeLoop t it tm 0).2 = true
    · rw [if_pos h2]
      by_cases h3 : t.bodyOk it 0 = true
      · rw [if_pos h3]
        by_cases h4 : t.commitOk it = true
        · rw [if_pos h4]
          simp only [List.countP_cons, List.countP_append, List.countP_nil, h0]
          constructor
          · by_cases hb : (it == id) = true
            · simp [isBodyFor, hb]
            · simp [isBodyFor, hb]
          · intro hid
            have hne : (it == id) = false := by
              simp only [beq_eq_false_iff_ne, ne_eq]
              omega
            simp [isBodyFor, hne]
        · rw [if_neg h4]
          simp only [List.countP_cons, List.countP_append, List.countP_nil, h0]
          constructor
          · by_cases hb : (it == id) = true
            · simp [isBodyFor, hb]
            · simp [isBodyFor, hb]
          · intro hid
            have hne : (it == id) = false := by
              simp only [beq_eq_false_iff_ne, ne_eq]
              omega
            simp [isBodyFor, hne]
      · rw [if_neg h3]
        simp only [List.countP_cons, List.countP_append, List.countP_nil, h0]
        constructor
        · by_cases hb : (it == id) = true
          · simp [isBodyFor, hb]
          · simp [isBodyFor, hb]
        · intro hid
          have hne : (it == id) = false := by
            simp only [beq_eq_false_iff_ne, ne_eq]
            omega
          simp [isBodyFor, hne]
    · rw [if_neg h2]
      simp only [List.countP_cons, h0]
      exact ⟨by simp [isBodyFor], fun _ => by simp [isBodyFor]⟩
  · rw [if_neg h1]
    simp only [List.countP_cons, List.countP_nil]
    exact ⟨by simp [isBodyFor], fun _ => by simp [isBodyFor]⟩

/-- No atomic `Body` call for a delivery numbered below the loop's
starting iteration appears in the full-transaction loop. -/
theorem fullLoop_bodyCount_lt (t : Target) (tm : List GoStr) (n it id : Nat)
    (h : id < it) : bodyCount (fullLoop t tm n it) id = 0 :=
  bodyCount_eq_zero fun e he => by
    rcases mem_fullLoop he with rfl | ⟨j, ok, hj, rfl⟩ | ⟨j, r, ok, hj, rfl⟩ |
      ⟨j, ok, hj, rfl⟩ | ⟨j, ok, hj, rfl⟩
    · rfl
    · rfl
    · rfl
    · simp only [isBodyFor, beq_eq_false_iff_ne, ne_eq]
      omega
    · rfl

/-- Every delivery of the full-transaction phase receives at most one
atomic `Body` call. -/
theorem fullLoop_bodyCount_le (t : Target) (tm : List GoStr) :
    ∀ (n it id : Nat), bodyCount (fullLoop t tm n it) id ≤ 1 := by
  intro n
  induction n with
  | zero => intro it id; exact Nat.zero_le 1
  | succ n ih =>
    intro it id
    unfold fullLoop
    rcases fullIter_bodyCount t tm it id with ⟨hle, hne⟩
    split
    · unfold bodyCount at hle hne ⊢
      rw [List.countP_append]
      by_cases hid : id = it
      · have hrest := fullLoop_bodyCount_lt t tm n (it + 1) id (by omega)
        unfold bodyCount at hrest
        omega
      · rw [hne hid]
        have := ih (it + 1) id
        unfold bodyCount at this
        omega
    · exact hle

/-! ### Phase skipping and the capability probe -/

/-- With a non-idempotent `Body`, the `Body` phase is skipped outright. -/
theorem runBody_skip (t : Target) (N : Nat) (tm : List GoStr) :
    runBody t N tm false = [Event.skipped] := rfl

/-- With a non-idempotent `Body`, the `BodyNonAtomic` phase is skipped
outright. -/
theorem runBodyNA_skip (t : Target) (N : Nat) (tm : List GoStr) :
    runBodyNA t N tm false = [Event.skipped] := rfl

/-- If the `Body` phase performed any body submission, the backend was
declared idempotent. -/
theorem runBody_submission_idem (t : Target) (N : Nat) (tm : List GoStr) (idem : Bool)
    (h : submissionCount (runBody t N tm idem) ≠ 0) : idem = true := by
  cases idem
  · exact absurd (by rw [runBody_skip]; rfl) h
  · rfl

/-- If the backend does not offer `PartialDelivery`, the `BodyNonAtomic`
phase performs no body submission (the probe is checked at run time). -/
theorem runBodyNA_notPartial (t : Target) (N : Nat) (tm : List GoStr) (idem : Bool)
    (h : t.isPartial = false) : submissionCount (runBodyNA t N tm idem) = 0 := by
  unfold runBodyNA
  split
  · rfl
  · split
    · rw [h]
      simp only [Bool.not_false, if_true]
      rfl
    · rfl

/-- If the `BodyNonAtomic` phase performed any body submission, the
backend was declared idempotent and passed the capability probe. -/
theorem runBodyNA_submission (t : Target) (N : Nat) (tm : List GoStr) (idem : Bool)
    (h : submissionCount (runBodyNA t N tm idem) ≠ 0) :
    idem = true ∧ t.isPartial = true := by
  constructor
  · cases idem
    · exact absurd (by rw [runBodyNA_skip]; rfl) h
    · rfl
  · cases hp : t.isPartial
    · exact absurd (runBodyNA_notPartial t N tm idem hp) h
    · rfl

/-! ### The shared collector of the `BodyNonAtomic` phase -/

/-- The collector state received by the `k`-th `BodyNonAtomic` call of the
phase: the empty map for `k = 0`, then the accumulation of the `SetStatus`
writes of the calls before it. -/
def scStates (t : Target) : Nat → MultipleErrs
  | 0 => []
  | k + 1 => (t.report k).foldl (fun m p => setStatus m p.1 p.2) (scStates t k)

/-- The timed `BodyNonAtomic` loop, started at call index `i` with the
collector state belonging to `i`, performs one call per iteration,
receiving the successive accumulated collector states. -/
theorem naLoop_eq (t : Target) (id : Nat) :
    ∀ (n i : Nat), naLoop t id n i (scStates t i) =
      (List.range' i n).map (fun k => Event.bodyNA id (scStates t k)) := by
  intro n
  induction n with
  | zero => intro i; rfl
  | succ n ih =>
    intro i
    rw [List.range'_succ]
    show Event.bodyNA id (scStates t i) ::
        naLoop t id n (i + 1) ((t.report i).foldl (fun m p => setStatus m p.1 p.2) (scStates t i)) =
      _
    rw [show (t.report i).foldl (fun m p => setStatus m p.1 p.2) (scStates t i) =
        scStates t (i + 1) from rfl, ih (i + 1)]
    rfl

/-- When the `BodyNonAtomic` phase reaches its timed loop (idempotent
backend, successful `Start`, capability probe passed, all recipients
accepted), its `BodyNonAtomic` events are exactly one call per iteration
`k < N`, the `k`-th receiving collector state `scStates t k`; the first
receives the empty collector. -/
theorem runBodyNA_naEvents (t : Target) (N : Nat) (tm : List GoStr)
    (hs : t.startOk 0 = true) (hp : t.isPartial = true)
    (hr : (rcptRangeLoop t 0 tm 0).2 = true) :
    naEvents (runBodyNA t N tm true) =
      (List.range' 0 N).map (fun k => Event.bodyNA 0 (scStates t k)) ∧
    scStates t 0 = [] := by
  refine ⟨?_, rfl⟩
  unfold runBodyNA
  rw [hs, hp]
  simp only [Bool.not_true, Bool.false_eq_true, if_false, eq_self_iff_true, if_true, if_pos hr]
  unfold naEvents
  have h1 : (rcptRangeLoop t 0 tm 0).1.filter isNA = [] :=
    List.filter_eq_nil_iff.mpr fun e he => by
      rcases mem_rcptRangeLoop he with ⟨r, ok, rfl⟩ | rfl <;> simp [isNA]
  have h2 : naLoop t 0 N 0 [] =
      (List.range' 0 N).map (fun k => Event.bodyNA 0 (scStates t k)) := naLoop_eq t 0 N 0
  have h3 : ((List.range' 0 N).map fun k => Event.bodyNA 0 (scStates t k)).filter isNA =
      (List.range' 0 N).map fun k => Event.bodyNA 0 (scStates t k) :=
    List.filter_eq_self.mpr fun e he => by
      rcases List.mem_map.1 he with ⟨k, _, rfl⟩
      rfl
  rw [List.filter_cons, List.filter_append, List.filter_append, h1, h2, h3]
  simp [isNA]

/-! ### `SetStatus` accumulation on a fresh collector -/

/-- `SetStatus` with a key that is not yet present appends a new entry. -/
theorem setStatus_fresh {m : MultipleErrs} {k : GoStr} {v : GoErr}
    (h : ∀ e ∈ m, e.1 ≠ k) : setStatus m k v = m ++ [(k, v)] := by
  unfold setStatus
  rw [if_neg]
  intro hc
  rcases List.any_eq_true.1 hc with ⟨e, he, hp⟩
  exact h e he (by simpa using hp)

/-- Folding `SetStatus` over pairs with fresh, pairwise-distinct keys
appends them all. -/
theorem foldl_setStatus (pairs : List (GoStr × GoErr)) :
    ∀ acc : MultipleErrs, (∀ p ∈ pairs, ∀ e ∈ acc, e.1 ≠ p.1) →
      (pairs.map Prod.fst).Nodup →
      pairs.foldl (fun m p => setStatus m p.1 p.2) acc = acc ++ pairs := by
  induction pairs with
  | nil => intro acc _ _; simp
  | cons p rest ih =>
    intro acc hdis hnd
    rw [List.foldl_cons,
      setStatus_fresh (fun e he => hdis p (List.mem_cons_self p rest) e he)]
    rw [ih (acc ++ [p]) ?_ ((List.nodup_cons.1 (by simpa using hnd)).2)]
    · simp
    · intro q hq e he
      rcases List.mem_append.1 he with h1 | h1
      · exact hdis q (List.mem_cons_of_mem p hq) e h1
      · have hep : e = p := by simpa using h1
        subst hep
        intro hqe
        have hmem : e.1 ∈ rest.map Prod.fst := hqe ▸ List.mem_map_of_mem Prod.fst hq
        exact (List.nodup_cons.1 (by simpa using hnd)).1 hmem

/-- In an entry list with pairwise-distinct keys, every entry is found by
lookup. -/
theorem lookupSC_of_nodup :
    ∀ {pairs : MultipleErrs}, (pairs.map Prod.fst).Nodup →
      ∀ p ∈ pairs, lookupSC pairs p.1 = some p.2 := by
  intro pairs
  induction pairs with
  | nil => intro _ p hp; cases hp
  | cons q rest ih =>
    intro hnd p hp
    unfold lookupSC
    rcases List.mem_cons.1 hp with rfl | hp'
    · rw [if_pos rfl]
    · by_cases he : q.1 = p.1
      · exfalso
        have hmem : q.1 ∈ rest.map Prod.fst := he ▸ List.mem_map_of_mem Prod.fst hp'
        exact (List.nodup_cons.1 (by simpa using hnd)).1 hmem
      · rw [if_neg he]
        exact ih (List.nodup_cons.1 (by simpa using hnd)).2 p hp'

/-! ### Shape of `RandomMsg`'s outputs -/

theorem hexEncode_length : ∀ l : List Nat, (hexEncode l).length = 2 * l.length := by
  intro l
  induction l with
  | nil => rfl
  | cons b rest ih =>
    show (hexEncode (b :: rest)).length = 2 * (rest.length + 1)
    unfold hexEncode
    simp only [List.length_cons, ih]
    omega

theorem sha1_length (m : List Nat) : (sha1 m).length = 20 := by
  simp [sha1, wordBytes]

theorem wordBytes_lt (n : Nat) : ∀ b ∈ wordBytes n, b < 256 := by
  intro b hb
  simp only [wordBytes, List.mem_cons, List.not_mem_nil, or_false] at hb
  rcases hb with rfl | rfl | rfl | rfl <;> omega

theorem sha1_bytes_lt (m : List Nat) : ∀ b ∈ sha1 m, b < 256 := by
  intro b hb
  unfold sha1 at hb
  simp only [List.mem_append] at hb
  rcases hb with (((h | h) | h) | h) | h <;> exact wordBytes_lt _ b h

theorem hexDigit_isHex : ∀ d, d < 16 → isHexChar (hexDigit d) = true := by decide

theorem hexEncode_all_hex :
    ∀ l : List Nat, (∀ b ∈ l, b < 256) → ∀ c ∈ hexEncode l, isHexChar c = true := by
  intro l
  induction l with
  | nil => intro _ c hc; cases hc
  | cons b rest ih =>
    intro hlt c hc
    have hb : b < 256 := hlt b (List.mem_cons_self b rest)
    unfold hexEncode at hc
    rcases List.mem_cons.1 hc with rfl | hc'
    · exact hexDigit_isHex _ (by omega)
    · rcases List.mem_cons.1 hc' with rfl | hc''
      · exact hexDigit_isHex _ (by omega)
      · exact ih (fun x hx => hlt x (List.mem_cons_of_mem b hx)) c hc''

theorem foldl_headerAdd : ∀ (l : Header) (acc : Header),
    l.foldl headerAdd acc = l.reverse ++ acc := by
  intro l
  induction l with
  | nil => intro acc; simp
  | cons f rest ih =>
    intro acc
    rw [List.foldl_cons]
    show rest.foldl headerAdd (f :: acc) = (f :: rest).reverse ++ acc
    rw [ih (f :: acc)]
    simp

/-- The header built by `RandomMsg`: the preamble fields (in map iteration
order `ord`), then the 20 extra fields, each new field prepended. -/
theorem RandomMsg_header (name : List Nat) (ord : Header) :
    (RandomMsg name ord).2.1 = extraFields.reverse ++ ord.reverse := by
  show extraFields.foldl headerAdd (ord.foldl headerAdd []) = _
  rw [foldl_headerAdd, foldl_headerAdd]
  simp

/-- On a non-empty template list, the `AddRcpt` phase's recipient for
iteration `i` is the `i mod len`-th template with every `"X"` replaced by
the decimal representation of `i`. -/
theorem rcptFor_formula (templates : List GoStr) (i : Nat) (h : templates.length ≠ 0) :
    rcptFor templates i =
      some (replaceX (templates.getD (i % templates.length) []) (itoa i)) := by
  have hlt : i % templates.length < templates.length := Nat.mod_lt _ (Nat.pos_of_ne_zero h)
  unfold rcptFor goMod
  rw [if_neg h]
  show (templates.get? (i % templates.length)).map _ = _
  rw [List.get?_eq_getElem?, List.getElem?_eq_getElem hlt, Option.map_some',
    List.getD_eq_getElem?_getD, List.getElem?_eq_getElem hlt]
  rfl

/-- The `headerPreamble` map with its first two entries swapped: another
possible iteration order of the Go map. -/
def preambleSwapped : Header :=
  match headerPreamble with
  | a :: b :: rest => b :: a :: rest
  | l => l

theorem preambleSwapped_perm : preambleSwapped.Perm headerPreamble :=
  List.Perm.swap _ _ _

/-! ### Concrete example backends used by witnesses and counterexamples -/

/-- A backend on which every call succeeds, which offers `PartialDelivery`
and whose `BodyNonAtomic` reports one status, for recipient `"0"`. -/
def allOkTarget : Target :=
  { startOk := fun _ => true, addRcptOk := fun _ _ => true, bodyOk := fun _ _ => true,
    commitOk := fun _ => true, isPartial := true, report := fun _ => [(['0'], some 7)] }

/-- A backend whose atomic `Body` always fails; everything else succeeds. -/
def bodyFailTarget : Target :=
  { startOk := fun _ => true, addRcptOk := fun _ _ => true, bodyOk := fun _ _ => false,
    commitOk := fun _ => true, isPartial := true, report := fun _ => [] }

/-- A backend whose second `Start` call fails; everything else succeeds. -/
def startFailTarget : Target :=
  { startOk := fun i => i == 0, addRcptOk := fun _ _ => true, bodyOk := fun _ _ => true,
    commitOk := fun _ => true, isPartial := true, report := fun _ => [] }

/-- A backend that does not offer `PartialDelivery`. -/
def noPartialTarget : Target :=
  { startOk := fun _ => true, addRcptOk := fun _ _ => true, bodyOk := fun _ _ => true,
    commitOk := fun _ => true, isPartial := false, report := fun _ => [] }

/-! ### The claims -/

/-- C1, counterexample: in the full-transaction phase with a backend whose
`Body` fails (one iteration, template `"X"`), delivery 0 is successfully
started but receives no terminal call at all — the phase registers no
deferred `Abort`, and `b.Fatal` exits without one.  This falsifies the
claim that every phase guarantees a terminal call on every exit path. -/
theorem C1_full_phase_leaks :
    startedIn (runFull bodyFailTarget 1 [['X']]) 0 ∧
      terminalCount (runFull bodyFailTarget 1 [['X']]) 0 = 0 := by
  constructor
  · decide
  · decide

/-- C1 (amended): in the `AddRcpt`, `Body` and `BodyNonAtomic` phases every
successfully started delivery receives exactly one terminal call on every
exit path (deferred `Abort`); in the `Start` phase this holds whenever
every `Start` call succeeds (the abort loop runs after the timed loop and
is not deferred); in the full-transaction phase it holds whenever every
backend call succeeds (each delivery's `Commit`). -/
theorem C1_terminal_discipline :
    (∀ (t : Target) (N : Nat) (tm : List GoStr) (id : Nat),
      startedIn (runAddRcpt t N tm) id → terminalCount (runAddRcpt t N tm) id = 1) ∧
    (∀ (t : Target) (N : Nat) (tm : List GoStr) (idem : Bool) (id : Nat),
      startedIn (runBody t N tm idem) id → terminalCount (runBody t N tm idem) id = 1) ∧
    (∀ (t : Target) (N : Nat) (tm : List GoStr) (idem : Bool) (id : Nat),
      startedIn (runBodyNA t N tm idem) id → terminalCount (runBodyNA t N tm idem) id = 1) ∧
    (∀ (t : Target) (N id : Nat), (∀ k, k < N → t.startOk k = true) →
      startedIn (runStart t N) id → terminalCount (runStart t N) id = 1) ∧
    (∀ (t : Target) (tm : List GoStr) (N id : Nat),
      (∀ k, t.startOk k = true) → (∀ k i, t.addRcptOk k i = true) →
      (∀ k i, t.bodyOk k i = true) → (∀ k, t.commitOk k = true) →
      startedIn (runFull t N tm) id → terminalCount (runFull t N tm) id = 1) :=
  ⟨addRcpt_phase_terminal, body_phase_terminal, bodyNA_phase_terminal,
   start_phase_terminal_allOk,
   fun t tm N id h1 h2 h3 h4 h => full_phase_terminal_allOk t tm h1 h2 h3 h4 N 0 id h⟩

/-- C1, witness: the amended theorem applied to concrete runs. -/
theorem C1_terminal_discipline_witness :
    terminalCount (runAddRcpt allOkTarget 2 [['X']]) 0 = 1 ∧
      terminalCount (runStart allOkTarget 2) 1 = 1 ∧
      terminalCount (runFull allOkTarget 2 [['X']]) 1 = 1 :=
  ⟨C1_terminal_discipline.1 allOkTarget 2 [['X']] 0 (by decide),
   C1_terminal_discipline.2.2.2.1 allOkTarget 2 1 (fun _ _ => rfl) (by decide),
   C1_terminal_discipline.2.2.2.2 allOkTarget [['X']] 2 1 (fun _ => rfl) (fun _ _ => rfl)
     (fun _ _ => rfl) (fun _ => rfl) (by decide)⟩

/-- C2, counterexample: with an idempotent backend on which every call
succeeds and `b.N = 2`, the `Body` phase invokes the atomic `Body` twice
on the single transaction it starts, before the terminal `Abort`.  This
falsifies the claim that `Body` is invoked at most once per transaction. -/
theorem C2_body_phase_repeats :
    startedIn (runBody allOkTarget 2 [['X']] true) 0 ∧
      bodyCount (runBody allOkTarget 2 [['X']] true) 0 = 2 := by
  constructor
  · decide
  · decide

/-- C2 (amended): the `Start`, `AddRcpt` and `BodyNonAtomic` phases invoke
the atomic `Body` on no transaction; the full-transaction phase invokes it
at most once per transaction; the `Body` phase — deliberately, guarded by
`idempotentBody` — invokes it on its single transaction (delivery 0) up to
`b.N` times, and never when `idempotentBody` is false. -/
theorem C2_body_at_most_once :
    (∀ (t : Target) (N id : Nat), bodyCount (runStart t N) id = 0) ∧
    (∀ (t : Target) (N : Nat) (tm : List GoStr) (id : Nat),
      bodyCount (runAddRcpt t N tm) id = 0) ∧
    (∀ (t : Target) (N : Nat) (tm : List GoStr) (idem : Bool) (id : Nat),
      bodyCount (runBodyNA t N tm idem) id = 0) ∧
    (∀ (t : Target) (N : Nat) (tm : List GoStr) (id : Nat),
      bodyCount (runFull t N tm) id ≤ 1) ∧
    (∀ (t : Target) (N : Nat) (tm : List GoStr) (idem : Bool) (id : Nat),
      bodyCount (runBody t N tm idem) id ≤ N ∧
        (id ≠ 0 → bodyCount (runBody t N tm idem) id = 0)) ∧
    (∀ (t : Target) (N : Nat) (tm : List GoStr) (id : Nat),
      bodyCount (runBody t N tm false) id = 0) :=
  ⟨runStart_bodyCount, runAddRcpt_bodyCount, runBodyNA_bodyCount,
   fun t N tm id => fullLoop_bodyCount_le t tm N 0 id,
   runBody_bodyCount,
   fun t N tm id => by rw [runBody_skip]; rfl⟩

/-- C2, witness: the amended theorem applied to concrete runs. -/
theorem C2_body_at_most_once_witness :
    bodyCount (runBody allOkTarget 2 [['X']] true) 1 = 0 ∧
      bodyCount (runFull allOkTarget 2 [['X']]) 0 ≤ 1 :=
  ⟨(C2_body_at_most_once.2.2.2.2.1 allOkTarget 2 [['X']] true 1).2 (by decide),
   C2_body_at_most_once.2.2.2.1 allOkTarget 2 [['X']] 0⟩

/-- C3, counterexample: `sc := multipleErrs{}` is created once, before the
timed loop, not once per call.  With `b.N = 2` and a backend whose
`BodyNonAtomic` reports a status for recipient `"0"`, the second
`BodyNonAtomic` invocation receives the collector still holding the entry
written during the first invocation.  This falsifies the claim that each
invocation receives a collector with no carried-over entries. -/
theorem C3_collector_carries_over :
    Event.bodyNA 0 [(['0'], some 7)] ∈ runBodyNA allOkTarget 2 [['X']] true ∧
      ([(['0'], some 7)] : MultipleErrs) ≠ [] := by
  constructor
  · decide
  · decide

/-- C3 (amended): the collector's lifetime is scoped to one run of the
`BodyNonAtomic` phase, not to one call: it is created empty once and
shared by all `b.N` invocations of the timed loop, so invocation `k`
receives exactly the statuses accumulated by invocations `0..k-1`, the
first invocation receiving the empty collector. -/
theorem C3_collector_scope :
    ∀ (t : Target) (N : Nat) (tm : List GoStr),
      t.startOk 0 = true → t.isPartial = true → (rcptRangeLoop t 0 tm 0).2 = true →
      naEvents (runBodyNA t N tm true) =
        (List.range' 0 N).map (fun k => Event.bodyNA 0 (scStates t k)) ∧
      scStates t 0 = [] :=
  fun t N tm hs hp hr => runBodyNA_naEvents t N tm hs hp hr

/-- C3, witness: the amended theorem applied to a concrete run with
`b.N = 2`; the two invocations receive the empty collector and the
one-entry collector, in that order. -/
theorem C3_collector_scope_witness :
    naEvents (runBodyNA allOkTarget 2 [['X']] true) =
      (List.range' 0 2).map (fun k => Event.bodyNA 0 (scStates allOkTarget k)) ∧
      scStates allOkTarget 0 = [] :=
  C3_collector_scope allOkTarget 2 [['X']] rfl rfl (by decide)

/-- C4, counterexample: with templates `["aX", "XX", "X"]` — each of which
contains the placeholder — iteration 1 (template `"XX"`) and iteration 11
(template `"X"`) both produce the recipient `"11"`.  This falsifies the
claim that distinct iterations never add the same recipient address. -/
theorem C4_duplicate_recipient :
    rcptFor [['a', 'X'], ['X', 'X'], ['X']] 1 = rcptFor [['a', 'X'], ['X', 'X'], ['X']] 11 ∧
      (1 : Nat) ≠ 11 ∧
      ∀ tmpl ∈ [['a', 'X'], ['X', 'X'], ['X']], 'X' ∈ tmpl := by
  refine ⟨by decide, by decide, by decide⟩

/-- C4 (amended): the recipient for iteration `i` is
`recipientTemplates[i mod len]` with every `"X"` replaced by the decimal
representation of `i`; two distinct iterations assigned the same template
slot never produce the same address, provided that template contains the
placeholder (iterations assigned different slots may still collide). -/
theorem C4_rcpt_generation :
    ∀ (templates : List GoStr) (i j : Nat), templates.length ≠ 0 →
      rcptFor templates i =
        some (replaceX (templates.getD (i % templates.length) []) (itoa i)) ∧
      (i % templates.length = j % templates.length →
        'X' ∈ templates.getD (i % templates.length) [] →
        rcptFor templates i = rcptFor templates j → i = j) := by
  intro templates i j h
  refine ⟨rcptFor_formula templates i h, fun hslot hX heq => ?_⟩
  rw [rcptFor_formula templates i h, rcptFor_formula templates j h, ← hslot] at heq
  exact itoa_injective (replaceX_injOn hX (Option.some.inj heq))

/-- C4, witness: the amended theorem applied to a concrete single-template
list. -/
theorem C4_rcpt_generation_witness :
    rcptFor [['b', 'X']] 7 = some ['b', '7'] ∧ (7 : Nat) = 7 :=
  ⟨((C4_rcpt_generation [['b', 'X']] 7 7 (by decide)).1).trans (by decide),
   (C4_rcpt_generation [['b', 'X']] 7 7 (by decide)).2 rfl (by decide) rfl⟩

/-- C5, counterexample: the full-transaction phase's timed loop submits
the phase's single header/body pair once per iteration — twice with
`b.N = 2` — yet `runFull` is not guarded by `idempotentBody` at all (it is
the same trace in a benchmark run configured with `idempotentBody =
false`).  This falsifies the claim that every phase submitting the same
pair more than once runs only when `idempotentBody` is true. -/
theorem C5_full_phase_unguarded :
    submissionCount (runFull allOkTarget 2 [['X']]) = 2 := by decide

/-- C5 (amended): the two phases that resubmit the header/body pair to a
single transaction run their timed loops only when `idempotentBody` is
true, and the `BodyNonAtomic` loop additionally only when the run-time
`PartialDelivery` capability probe succeeds; with `idempotentBody` false
both phases are skipped outright; the `Start` and `AddRcpt` phases never
submit a body.  The full-transaction phase, which resubmits the pair
across independent transactions, is not guarded by the flag. -/
theorem C5_phase_guards :
    (∀ (t : Target) (N : Nat) (tm : List GoStr) (idem : Bool),
      submissionCount (runBody t N tm idem) ≠ 0 → idem = true) ∧
    (∀ (t : Target) (N : Nat) (tm : List GoStr) (idem : Bool),
      submissionCount (runBodyNA t N tm idem) ≠ 0 → idem = true ∧ t.isPartial = true) ∧
    (∀ (t : Target) (N : Nat) (tm : List GoStr), runBody t N tm false = [Event.skipped]) ∧
    (∀ (t : Target) (N : Nat) (tm : List GoStr), runBodyNA t N tm false = [Event.skipped]) ∧
    (∀ (t : Target) (N : Nat) (tm : List GoStr) (idem : Bool),
      t.isPartial = false → submissionCount (runBodyNA t N tm idem) = 0) ∧
    (∀ (t : Target) (N : Nat), submissionCount (runStart t N) = 0) ∧
    (∀ (t : Target) (N : Nat) (tm : List GoStr), submissionCount (runAddRcpt t N tm) = 0) :=
  ⟨runBody_submission_idem, runBodyNA_submission, runBody_skip, runBodyNA_skip,
   runBodyNA_notPartial, runStart_submissionCount, runAddRcpt_submissionCount⟩

/-- C5, witness: the amended theorem applied to concrete runs. -/
theorem C5_phase_guards_witness :
    ((true : Bool) = true ∧ allOkTarget.isPartial = true) ∧
      submissionCount (runBodyNA noPartialTarget 2 [['X']] true) = 0 :=
  ⟨C5_phase_guards.2.1 allOkTarget 2 [['X']] true (by decide),
   C5_phase_guards.2.2.2.2.1 noPartialTarget 2 [['X']] true (by decide)⟩

set_option maxRecDepth 100000

/-- Validation of the SHA-1 embedding against the FIPS 180 test vector
for the message `"abc"`. -/
theorem sha1_testVector :
    hexEncode (sha1 [97, 98, 99]) = "a9993e364706816aba3e25717850c26c9cd0d89d".toList := by
  decide

/-- C6: for every benchmark name and preamble iteration order, the
metadata's ID is the hex encoding of the SHA-1 digest of the name, a
40-character lower-case hexadecimal string; the metadata does not depend
on the map iteration order, so repeated calls with the same name yield the
same ID; and `DontTraceSender` is true. -/
theorem C6_random_msg_id :
    ∀ (name : List Nat) (ord : Header),
      (RandomMsg name ord).1.ID = hexEncode (sha1 name) ∧
      (RandomMsg name ord).1.ID.length = 40 ∧
      (RandomMsg name ord).1.ID.all isHexChar = true ∧
      (RandomMsg name ord).1.DontTraceSender = true ∧
      ∀ ord2 : Header, (RandomMsg name ord).1 = (RandomMsg name ord2).1 := by
  intro name ord
  refine ⟨rfl, ?_, ?_, rfl, fun ord2 => rfl⟩
  · show (hexEncode (sha1 name)).length = 40
    rw [hexEncode_length, sha1_length]
  · exact List.all_eq_true.mpr fun c hc =>
      hexEncode_all_hex (sha1 name) (sha1_bytes_lt name) c hc

/-- C6, witness: the theorem applied to a concrete name and iteration
order. -/
theorem C6_random_msg_id_witness :
    (RandomMsg [] headerPreamble).1.ID.length = 40 ∧
      (RandomMsg [] headerPreamble).1.DontTraceSender = true :=
  ⟨(C6_random_msg_id [] headerPreamble).2.1, (C6_random_msg_id [] headerPreamble).2.2.2.1⟩

/-- C7: for every preamble iteration order, the fabricated header consists
of exactly the 9 preamble fields (From, Message-ID, To, Date, Subject,
Content-Type, MIME-Version, Content-Transfer-Encoding, Received) plus
exactly 20 synthetic bloat fields whose values are each 100 characters
long (29 fields in total), and the body is exactly `100 * 1024` filler
`'a'` bytes — an immutable value in this embedding, hence readable
repeatedly without mutation. -/
theorem C7_envelope_shape :
    ∀ (name : List Nat) (ord : Header), ord.Perm headerPreamble →
      (RandomMsg name ord).2.1 = extraFields.reverse ++ ord.reverse ∧
      (RandomMsg name ord).2.1.length = 29 ∧
      headerPreamble.length = 9 ∧
      headerPreamble.map Prod.fst =
        ["From".toList, "Message-ID".toList, "To".toList, "Date".toList, "Subject".toList,
         "Content-Type".toList, "MIME-Version".toList, "Content-Transfer-Encoding".toList,
         "Received".toList] ∧
      (∀ kv ∈ headerPreamble, kv ∈ (RandomMsg name ord).2.1) ∧
      extraFields.length = 20 ∧
      (∀ kv ∈ extraFields, kv.2.length = 100 ∧ kv ∈ (RandomMsg name ord).2.1) ∧
      (RandomMsg name ord).2.2 = List.replicate MessageBodySize 'a' ∧
      MessageBodySize = 100 * 1024 ∧
      (RandomMsg name ord).2.2.length = 102400 := by
  intro name ord hperm
  have hdr := RandomMsg_header name ord
  have hlen : ord.length = 9 := hperm.length_eq
  have hex20 : extraFields.length = 20 := by decide
  refine ⟨hdr, ?_, rfl, by decide, ?_, hex20, ?_, rfl, rfl, ?_⟩
  · rw [hdr, List.length_append, List.length_reverse, List.length_reverse, hex20, hlen]
  · intro kv hkv
    rw [hdr]
    exact List.mem_append.2 (Or.inr (List.mem_reverse.2 (hperm.symm.subset hkv)))
  · intro kv hkv
    refine ⟨?_, ?_⟩
    · revert hkv
      revert kv
      decide
    · rw [hdr]
      exact List.mem_append.2 (Or.inl (List.mem_reverse.2 hkv))
  · show (List.replicate MessageBodySize 'a').length = 102400
    rw [List.length_replicate]
    rfl

/-- C7, witness: the theorem applied to the source-order iteration of the
preamble map. -/
theorem C7_envelope_shape_witness :
    (RandomMsg [] headerPreamble).2.1.length = 29 ∧
      (RandomMsg [] headerPreamble).2.2.length = 102400 :=
  ⟨(C7_envelope_shape [] headerPreamble (List.Perm.refl _)).2.1,
   (C7_envelope_shape [] headerPreamble (List.Perm.refl _)).2.2.2.2.2.2.2.2.2⟩

/-- C8: invoking `SetStatus` once for each of `N` pairwise-distinct
recipients on a fresh collector yields a collector with exactly `N`
entries whose keys are exactly those recipients, each mapped to the
outcome reported for it. -/
theorem C8_set_status :
    ∀ pairs : List (GoStr × GoErr), (pairs.map Prod.fst).Nodup →
      (pairs.foldl (fun m p => setStatus m p.1 p.2) []).length = pairs.length ∧
      (pairs.foldl (fun m p => setStatus m p.1 p.2) []).map Prod.fst = pairs.map Prod.fst ∧
      ∀ p ∈ pairs, lookupSC (pairs.foldl (fun m p => setStatus m p.1 p.2) []) p.1 = some p.2 := by
  intro pairs hnd
  have hfold : pairs.foldl (fun m p => setStatus m p.1 p.2) [] = pairs := by
    rw [foldl_setStatus pairs [] (fun p _ e he => absurd he (List.not_mem_nil e)) hnd]
    rfl
  rw [hfold]
  exact ⟨rfl, rfl, lookupSC_of_nodup hnd⟩

/-- C8, witness: two distinct recipients, one failing and one
succeeding. -/
theorem C8_set_status_witness :
    ([(['a'], (none : GoErr)), (['b'], some 3)].foldl
        (fun m p => setStatus m p.1 p.2) []).length = 2 ∧
      lookupSC ([(['a'], (none : GoErr)), (['b'], some 3)].foldl
        (fun m p => setStatus m p.1 p.2) []) ['b'] = some (some 3) :=
  ⟨(C8_set_status [(['a'], none), (['b'], some 3)] (by decide)).1,
   (C8_set_status [(['a'], none), (['b'], some 3)] (by decide)).2.2
     (['b'], some 3) (by decide)⟩

/-- C9: the `AddRcpt` phase's template indexing panics (modulo by zero)
exactly on an empty template list, and on every non-empty list the index
`i mod len` is in bounds, so a recipient is always produced. -/
theorem C9_template_indexing :
    ∀ (templates : List GoStr) (i : Nat),
      (templates = [] → rcptFor templates i = none) ∧
      (templates ≠ [] → (rcptFor templates i).isSome = true) := by
  intro templates i
  constructor
  · intro h
    subst h
    rfl
  · intro h
    rw [rcptFor_formula templates i (fun hl => h (List.length_eq_zero.1 hl))]
    rfl

/-- C9, witness: the theorem applied to the empty list and to a concrete
singleton list. -/
theorem C9_template_indexing_witness :
    rcptFor [] 5 = none ∧ (rcptFor [['X']] 5).isSome = true :=
  ⟨(C9_template_indexing [] 5).1 rfl,
   (C9_template_indexing [['X']] 5).2 (by decide)⟩

/-- C10: `RandomMsg` is deterministic in its metadata and body — any two
preamble iteration orders give equal metadata and byte-for-byte equal
bodies, and the headers are permutations of each other — but the header
field order itself is not fixed: there are two iteration orders of the
unordered preamble map giving different header sequences. -/
theorem C10_determinism :
    ∀ (name : List Nat) (o1 o2 : Header), o1.Perm headerPreamble → o2.Perm headerPreamble →
      (RandomMsg name o1).1 = (RandomMsg name o2).1 ∧
      (RandomMsg name o1).2.2 = (RandomMsg name o2).2.2 ∧
      ((RandomMsg name o1).2.1).Perm ((RandomMsg name o2).2.1) ∧
      ∃ p1 p2 : Header, p1.Perm headerPreamble ∧ p2.Perm headerPreamble ∧
        (RandomMsg name p1).2.1 ≠ (RandomMsg name p2).2.1 := by
  intro name o1 o2 h1 h2
  refine ⟨rfl, rfl, ?_, headerPreamble, preambleSwapped, List.Perm.refl _,
    preambleSwapped_perm, ?_⟩
  · rw [RandomMsg_header, RandomMsg_header]
    exact ((o1.reverse_perm.trans (h1.trans h2.symm)).trans
      o2.reverse_perm.symm).append_left extraFields.reverse
  · rw [RandomMsg_header, RandomMsg_header]
    intro heq
    have hrev := List.reverse_injective (List.append_cancel_left heq)
    have : headerPreamble ≠ preambleSwapped := by decide
    exact this hrev

/-- C10, witness: the theorem applied to the source order and the swapped
order of the preamble map. -/
theorem C10_determinism_witness :
    (RandomMsg [] headerPreamble).1 = (RandomMsg [] preambleSwapped).1 ∧
      ((RandomMsg [] headerPreamble).2.1).Perm ((RandomMsg [] preambleSwapped).2.1) :=
  ⟨(C10_determinism [] headerPreamble preambleSwapped (List.Perm.refl _)
      preambleSwapped_perm).1,
   (C10_determinism [] headerPreamble preambleSwapped (List.Perm.refl _)
      preambleSwapped_perm).2.2.1⟩

end Bench
